import Mathlib

/-!
Verification of the macOS bundle post-build tool
(`tools/mac_bundle_post_build.py`).

The script is shallowly embedded as a pure function from an environment
oracle (command-line arguments, file-system predicates, the output of the
dependency-listing tool, symlink resolution, working directory, and the
exit statuses of spawned tools) to a trace of file-system/tool events plus
a final outcome.  The `os.path` primitives used by the script (`join`,
`basename`, `dirname`, `splitext`, `relpath`, `normpath`, `abspath`) are
translated faithfully from CPython's `posixpath` on `List Char`.
-/

/-- Strings are modelled as lists of characters (CPython `str` for the
ASCII paths the script manipulates). -/
abbrev Str := List Char

/-- Conversion from Lean string literals to the `Str` model. -/
def strL (s : String) : Str := s.data

/-- Python `str.isspace` on the ASCII whitespace characters that
`str.strip()` removes. -/
def isPySpace (c : Char) : Bool :=
  c = ' ' ∨ c = '\t' ∨ c = '\n' ∨ c = '\r' ∨ c = Char.ofNat 11 ∨ c = Char.ofNat 12

/-- Python `str.strip()`: remove leading and trailing whitespace. -/
def pystrip (s : Str) : Str :=
  ((s.dropWhile isPySpace).reverse.dropWhile isPySpace).reverse

/-- Python `str.split(sep)` for a one-character separator: split on every
occurrence, keeping empty pieces. -/
def splitChar (c : Char) : Str → List Str
  | [] => [[]]
  | x :: xs =>
    let r := splitChar c xs
    if x = c then [] :: r
    else
      match r with
      | h :: t => (x :: h) :: t
      | [] => [[x]]

/-- Python `str.rfind(c)`: index of the last occurrence of `c`, if any. -/
def rfindIdx (c : Char) (p : Str) : Option Nat :=
  match p.reverse.findIdx? (fun x => x = c) with
  | some j => some (p.length - 1 - j)
  | none => none

/-- posixpath `basename`: everything after the last slash. -/
def basenameP (p : Str) : Str :=
  (p.reverse.takeWhile (fun c => ¬ c = '/')).reverse

/-- Remove trailing slashes (Python `str.rstrip(sep)` as used by
posixpath `dirname`). -/
def rstripSlash (s : Str) : Str :=
  (s.reverse.dropWhile (fun c => c = '/')).reverse

/-- Local `head` of posixpath `dirname`: everything up to and including
the last slash. -/
def dirHeadP (p : Str) : Str :=
  (p.reverse.dropWhile (fun c => ¬ c = '/')).reverse

/-- posixpath `dirname`: everything up to and including the last slash,
with trailing slashes stripped unless the head is made of slashes only. -/
def dirnameP (p : Str) : Str :=
  if dirHeadP p = [] then []
  else if (dirHeadP p).all (fun c => c = '/') then dirHeadP p
  else rstripSlash (dirHeadP p)

/-- posixpath `isabs`: the path starts with a slash. -/
def isAbsP (p : Str) : Bool :=
  match p with
  | c :: _ => c = '/'
  | [] => false

/-- posixpath `join` for two components. -/
def pjoin (a b : Str) : Str :=
  if isAbsP b then b
  else if a = [] ∨ a.getLast? = some '/' then a ++ b
  else a ++ '/' :: b

/-- posixpath `splitext`: split off the extension at the last dot of the
base name, unless the base name up to that dot consists of dots only. -/
def splitextP (p : Str) : Str × Str :=
  match rfindIdx '.' p with
  | none => (p, [])
  | some d =>
    let s : Nat :=
      match rfindIdx '/' p with
      | none => 0
      | some i => i + 1
    if s ≤ d ∧ ((p.drop s).take (d - s)).any (fun c => ¬ c = '.') then
      (p.take d, p.drop d)
    else (p, [])

/-- Interleave path components with slashes; this is what sequential
posixpath `join` does on nonempty relative components. -/
def intercalateSlash : List Str → Str
  | [] => []
  | [x] => x
  | x :: xs => x ++ '/' :: intercalateSlash xs

/-- posixpath `normpath` (CPython algorithm). -/
def normpathP (p : Str) : Str :=
  if p = [] then ['.']
  else
    let initialSlashes : Nat :=
      if isAbsP p then
        if (['/', '/']).isPrefixOf p ∧ ¬ (['/', '/', '/']).isPrefixOf p then 2 else 1
      else 0
    let comps := splitChar '/' p
    let newComps := comps.foldl (fun acc comp =>
      if comp = [] ∨ comp = ['.'] then acc
      else if ¬ comp = ['.', '.'] ∨ (initialSlashes = 0 ∧ acc = []) ∨
              acc.getLast? = some ['.', '.'] then acc ++ [comp]
      else acc.dropLast) []
    let res := List.replicate initialSlashes '/' ++ intercalateSlash newComps
    if res = [] then ['.'] else res

/-- Length of the longest common prefix of two component lists
(posixpath `commonprefix` applied to the two lists). -/
def commonPrefLen : List Str → List Str → Nat
  | a :: as, b :: bs => if a = b then commonPrefLen as bs + 1 else 0
  | _, _ => 0

/-- Events recording every file-system mutation and external-tool
invocation the script performs, in order. -/
inductive Event where
  | stripSymbols (file : Str)
  | makedirs (dir : Str)
  | copyFile (src dst : Str)
  | chmod (file : Str) (mode : Nat)
  | setId (newRef file : Str)
  | changeRef (oldRef newRef file : Str)
  | removeFile (file : Str)
  | createDmgImage (dmgFile volname srcFolder : Str)
deriving DecidableEq, Repr

/-- Final outcome of a run: a `sys.exit(message)` usage exit, an uncaught
exception (Python traceback, non-zero exit), or a normal finish. -/
inductive Outcome where
  | usageExit (msg : Str)
  | crashed
  | finished
deriving DecidableEq, Repr

/-- The environment oracle: everything the script observes about the
outside world.  `callStatus` gives the exit status that `subprocess.call`
returns for a given command line; the script never consults it.
`otoolOk` is whether `otool -L` exits successfully (`subprocess.check_output`
raises otherwise); `otool` gives its output as a list of lines.
`listdirOk` is whether `os.listdir` succeeds on a directory.
`content` gives the byte content of the file at a path, used to model
`shutil.copy`.  File copies and `os.remove`/`os.makedirs` are modelled as
succeeding. -/
structure Env where
  argv : List Str
  cwd : Str
  pathExists : Str → Bool
  listdirOk : Str → Bool
  listdir : Str → List Str
  isfile : Str → Bool
  access : Str → Bool
  otoolOk : Str → Bool
  otool : Str → List Str
  realpath : Str → Str
  content : Str → Str
  callStatus : List Str → Int

/-- posixpath `abspath`: make absolute via the working directory, then
normalize. -/
def abspathP (env : Env) (p : Str) : Str :=
  if isAbsP p then normpathP p else normpathP (pjoin env.cwd p)

/-- posixpath `relpath path start` (CPython algorithm). -/
def relpathP (env : Env) (path start : Str) : Str :=
  let pl := (splitChar '/' (abspathP env path)).filter (fun x => ¬ x = [])
  let sl := (splitChar '/' (abspathP env start)).filter (fun x => ¬ x = [])
  let i := commonPrefLen sl pl
  let rel := List.replicate (sl.length - i) (strL ( "..")) ++ pl.drop i
  if rel = [] then strL ( ".") else intercalateSlash rel

/-- Result of `get_exec_file`, distinguishing an `os.listdir` failure
(uncaught exception) from a normal answer. -/
inductive ExecLookup where
  | listdirFailed
  | result (f : Option Str)
deriving DecidableEq, Repr

/-- Source constant `EXCLUDE_LIB_DIRS`: system library locations; libs
from these locations are not copied to the bundle. -/
def EXCLUDE_LIB_DIRS : List Str := [strL ( "/System/Library"), strL ( "/usr/lib")]

/-- Source `get_exec_file`: the first directory entry that is a regular
file and is executable, or `none`. -/
def get_exec_file (env : Env) (macosDir : Str) : ExecLookup :=
  if env.listdirOk macosDir then
    ExecLookup.result (((env.listdir macosDir).find? (fun item =>
      env.isfile (pjoin macosDir item) && env.access (pjoin macosDir item))).map
        (fun item => pjoin macosDir item))
  else ExecLookup.listdirFailed

/-- Parsing of one `otool -L` output line in source `get_used_libs`:
`line.split(sep)[0].strip()` with a one-space separator. -/
def parseLibLine (line : Str) : Str :=
  pystrip (line.takeWhile (fun c => ¬ c = ' '))

/-- Whether a parsed library path starts with one of the configured
system-directory prefixes (plain string-prefix match). -/
def excludedLib (s : Str) : Bool :=
  EXCLUDE_LIB_DIRS.any (fun d => d.isPrefixOf s)

/-- Source `get_used_libs`, applied to the lines of the tool output: the
first line is discarded; each further line yields its parsed path unless
that path is excluded as a system location or is empty. -/
def get_used_libs (lines : List Str) : List Str :=
  (lines.drop 1).filterMap (fun line =>
    let f := parseLibLine line
    if excludedLib f then none
    else if f = [] then none
    else some f)

/-- Local `name` of source `create_dmg`:
`os.path.splitext(os.path.basename(bundle_dir))[0]`. -/
def dmgNameOf (bundleDir : Str) : Str := (splitextP (basenameP bundleDir)).1

/-- Local `dmg_file` of source `create_dmg`:
`os.path.join(os.path.dirname(bundle_dir), name + ".dmg")`. -/
def dmgFileOf (bundleDir : Str) : Str :=
  pjoin (dirnameP bundleDir) (dmgNameOf bundleDir ++ strL ( ".dmg"))

/-- Source `create_dmg`: delete a pre-existing image file, then invoke the
disk-image creation tool. -/
def create_dmg (env : Env) (bundleDir : Str) : List Event :=
  (if env.pathExists (dmgFileOf bundleDir) then [Event.removeFile (dmgFileOf bundleDir)] else [])
    ++ [Event.createDmgImage (dmgFileOf bundleDir) (dmgNameOf bundleDir) bundleDir]

/-- On-bundle location of a library reference: the library directory
joined with the base name of the symlink-resolved real path. -/
def libFileOf (env : Env) (fwDir lib : Str) : Str :=
  pjoin fwDir (basenameP (env.realpath lib))

/-- The relocatable reference written into binaries:
`os.path.join(atExecToken, os.path.relpath(libFile, macosDir))`. -/
def newLibPath (env : Env) (macosDir libFile : Str) : Str :=
  pjoin (strL ( "@executable_path")) (relpathP env libFile macosDir)

/-- One iteration of the main loop over the executable's direct
libraries: copy the resolved library into the bundle, chmod it 0755, set
its install identity, change the executable's reference, then (if
`otool -L` on the copy succeeds) rewrite the copy's own references to its
dependencies without copying those.  The Bool is false when the inner
`otool` invocation raised. -/
def processLib (env : Env) (macosDir fwDir execFile lib : Str) : List Event × Bool :=
  let origLibFile := env.realpath lib
  let libFile := pjoin fwDir (basenameP origLibFile)
  let np := newLibPath env macosDir libFile
  let base := [Event.copyFile origLibFile libFile, Event.chmod libFile 493,
               Event.setId np libFile, Event.changeRef lib np execFile]
  if env.otoolOk libFile then
    (base ++ (get_used_libs (env.otool libFile)).map (fun dep =>
      Event.changeRef dep
        (newLibPath env macosDir (pjoin fwDir (basenameP (env.realpath dep))))
        libFile), true)
  else (base, false)

/-- The main loop over the executable's direct libraries.  Stops with
`false` at the first library whose inner `otool` invocation raised. -/
def runLibs (env : Env) (macosDir fwDir execFile : Str) : List Str → List Event × Bool
  | [] => ([], true)
  | lib :: rest =>
    let r := processLib env macosDir fwDir execFile lib
    if r.2 then
      let r2 := runLibs env macosDir fwDir execFile rest
      (r.1 ++ r2.1, r2.2)
    else (r.1, false)

/-- The executable directory of a bundle: `<bundle>/Contents/MacOS`. -/
def macosDirOf (b : Str) : Str :=
  pjoin (pjoin b (strL ( "Contents"))) (strL ( "MacOS"))

/-- The library directory of a bundle: `<bundle>/Contents/Frameworks`. -/
def fwDirOf (b : Str) : Str :=
  pjoin (pjoin b (strL ( "Contents"))) (strL ( "Frameworks"))

/-- Message of the missing-argument exit. -/
def noInputMsg : Str := strL ( "No input argument given.")

/-- Message of the missing-bundle exit. -/
def bundleMissingMsg (b : Str) : Str :=
  strL ( "Bundle ") ++ b ++ strL ( " does not exist")

/-- Message of the missing-executable exit. -/
def execMissingMsg : Str := strL ( "Executable file not found")

/-- Source `main` (renamed, since `main` is reserved in Lean): the whole run of the script, as the ordered list of
performed events plus the final outcome. -/
def mainRun (env : Env) : List Event × Outcome :=
  match env.argv with
  | [] => ([], Outcome.usageExit noInputMsg)
  | [_] => ([], Outcome.usageExit noInputMsg)
  | _ :: bundleDir :: _ =>
    if env.pathExists bundleDir then
      let macosDir := macosDirOf bundleDir
      let fwDir := fwDirOf bundleDir
      match get_exec_file env macosDir with
      | ExecLookup.listdirFailed => ([], Outcome.crashed)
      | ExecLookup.result none => ([], Outcome.usageExit execMissingMsg)
      | ExecLookup.result (some execFile) =>
        if env.otoolOk execFile then
          let libs := get_used_libs (env.otool execFile)
          if libs = [] then
            (Event.stripSymbols execFile :: create_dmg env bundleDir, Outcome.finished)
          else
            let r := runLibs env macosDir fwDir execFile libs
            if r.2 then
              (Event.stripSymbols execFile :: Event.makedirs fwDir :: r.1
                ++ create_dmg env bundleDir, Outcome.finished)
            else
              (Event.stripSymbols execFile :: Event.makedirs fwDir :: r.1, Outcome.crashed)
        else ([Event.stripSymbols execFile], Outcome.crashed)
    else ([], Outcome.usageExit (bundleMissingMsg bundleDir))

/-- Projection of a trace to its copy operations, as (source, destination)
pairs, in order. -/
def copyEvents (es : List Event) : List (Str × Str) :=
  es.filterMap (fun e =>
    match e with
    | Event.copyFile s d => some (s, d)
    | _ => none)

/-- Whether an event is a file copy. -/
def isCopyEv : Event → Bool
  | Event.copyFile _ _ => true
  | _ => false

/-- Disk contents after one event: a copy overwrites the destination with
the content of the source; no other event changes file contents. -/
def applyEvent (env : Env) (disk : Str → Option Str) (e : Event) : Str → Option Str :=
  match e with
  | Event.copyFile src dst => fun p => if p = dst then some (env.content src) else disk p
  | _ => disk

/-- Disk contents after a trace of events. -/
def diskAfter (env : Env) (es : List Event) (init : Str → Option Str) : Str → Option Str :=
  es.foldl (applyEvent env) init

/-- The first whitespace-separated token of a line (the spec's reading of
how a dependency line is parsed). -/
def firstTokenOf (line : Str) : Str :=
  (line.dropWhile isPySpace).takeWhile (fun c => ¬ isPySpace c)

/-- Well-formedness of one `otool -L` dependency line, per the documented
tool output format: a tab, then a nonempty whitespace-free path, then
either nothing or a space followed by version metadata. -/
def wellFormedLine (line : Str) : Bool :=
  (line.head? = some '\t') ∧
  (¬ ((line.drop 1).takeWhile (fun c => ¬ isPySpace c)) = []) ∧
  (((line.drop 1).dropWhile (fun c => ¬ isPySpace c)) = [] ∨
    ((line.drop 1).dropWhile (fun c => ¬ isPySpace c)).head? = some ' ')


/-- Projection of a trace to its install-identity rewrites, as
(new reference, rewritten file) pairs, in order. -/
def setIdEvents (es : List Event) : List (Str × Str) :=
  es.filterMap (fun e =>
    match e with
    | Event.setId n f => some (n, f)
    | _ => none)

/-- Projection of a trace to the load-command rewrites performed on one
given binary, as (old reference, new reference) pairs, in order. -/
def changeEventsOn (target : Str) (es : List Event) : List (Str × Str) :=
  es.filterMap (fun e =>
    match e with
    | Event.changeRef o n f => if f = target then some (o, n) else none
    | _ => none)

/-! ## Concrete witness environments -/

/-- Bundle path of the witness scenario. -/
def bundleW : Str := strL ( "/tmp/My.app")

/-- Executable directory of the witness bundle. -/
def macosW : Str := macosDirOf bundleW

/-- Library directory of the witness bundle. -/
def fwW : Str := fwDirOf bundleW

/-- Executable file of the witness bundle. -/
def execW : Str := pjoin macosW (strL ( "app"))

/-- Direct non-system library of the witness executable. -/
def libW : Str := strL ( "/opt/lib/libfoo.dylib")

/-- Transitive library referenced by the witness library, never copied. -/
def depW : Str := strL ( "/opt/lib/libbar.dylib")

/-- Dependency-listing tool output in the witness scenario: the
executable uses one non-system and one system library; the bundled copy
of the non-system library uses a further non-system library. -/
def otoolW (p : Str) : List Str :=
  if p = execW then
    [strL ( "/tmp/My.app/Contents/MacOS/app:"),
     strL ( "\t/opt/lib/libfoo.dylib (compatibility version 1.0.0, current version 1.0.0)"),
     strL ( "\t/usr/lib/libSystem.B.dylib (compatibility version 1.0.0, current version 1.0.0)")]
  else if p = pjoin fwW (strL ( "libfoo.dylib")) then
    [strL ( "/tmp/My.app/Contents/Frameworks/libfoo.dylib:"),
     strL ( "\t/opt/lib/libbar.dylib (compatibility version 1.0.0, current version 1.0.0)")]
  else [strL ( "x:")]

/-- Witness environment: a well-formed bundle with one executable. -/
def envW : Env :=
  Env.mk
    [strL ( "script"), bundleW]
    (strL ( "/tmp"))
    (fun p => decide (p = bundleW))
    (fun _ => true)
    (fun p => if p = macosW then [strL ( "app")] else [])
    (fun _ => true)
    (fun _ => true)
    (fun _ => true)
    otoolW
    (fun p => p)
    (fun p => p)
    (fun _ => 0)

/-- The witness environment with every rewrite-tool invocation failing
(exit status 1 instead of 0); otherwise identical to `envW`. -/
def envFailW : Env :=
  Env.mk
    [strL ( "script"), bundleW]
    (strL ( "/tmp"))
    (fun p => decide (p = bundleW))
    (fun _ => true)
    (fun p => if p = macosW then [strL ( "app")] else [])
    (fun _ => true)
    (fun _ => true)
    (fun _ => true)
    otoolW
    (fun p => p)
    (fun p => p)
    (fun _ => 1)

/-- Witness environment with no bundle argument on the command line. -/
def envNoArg : Env :=
  Env.mk
    [strL ( "script")]
    (strL ( "/tmp"))
    (fun _ => false)
    (fun _ => false)
    (fun _ => [])
    (fun _ => false)
    (fun _ => false)
    (fun _ => false)
    (fun _ => [])
    (fun p => p)
    (fun p => p)
    (fun _ => 0)

/-- Witness environment whose bundle path does not exist. -/
def envNoBundle : Env :=
  Env.mk
    [strL ( "script"), strL ( "/tmp/Nope.app")]
    (strL ( "/tmp"))
    (fun _ => false)
    (fun _ => false)
    (fun _ => [])
    (fun _ => false)
    (fun _ => false)
    (fun _ => false)
    (fun _ => [])
    (fun p => p)
    (fun p => p)
    (fun _ => 0)

/-- Witness environment whose bundle exists but whose executable
directory holds no executable regular file. -/
def envNoExec : Env :=
  Env.mk
    [strL ( "script"), bundleW]
    (strL ( "/tmp"))
    (fun p => decide (p = bundleW))
    (fun _ => true)
    (fun _ => [])
    (fun _ => false)
    (fun _ => false)
    (fun _ => false)
    (fun _ => [])
    (fun p => p)
    (fun p => p)
    (fun _ => 0)

/-- Witness environment whose bundle argument exists but is not a
directory: listing `<arg>/Contents/MacOS` raises. -/
def envFileW : Env :=
  Env.mk
    [strL ( "script"), bundleW]
    (strL ( "/tmp"))
    (fun p => decide (p = bundleW))
    (fun _ => false)
    (fun _ => [])
    (fun _ => false)
    (fun _ => false)
    (fun _ => false)
    (fun _ => [])
    (fun p => p)
    (fun p => p)
    (fun _ => 0)

/-- First of two distinct witness libraries sharing a base name. -/
def dupAW : Str := strL ( "/opt/lib1/libdup.dylib")

/-- Second of two distinct witness libraries sharing a base name. -/
def dupBW : Str := strL ( "/opt/lib2/libdup.dylib")

/-! ## Generic list lemmas -/

/-- takeWhile keeps a list all of whose elements satisfy the predicate. -/
theorem takeWhile_of_all {α} {p : α → Bool} : ∀ {l : List α}, (∀ a ∈ l, p a = true) →
    l.takeWhile p = l
  | [], _ => rfl
  | x :: xs, h => by
    have hx : p x = true := h x (List.mem_cons_self x xs)
    simp [List.takeWhile_cons, hx, takeWhile_of_all (fun a ha => h a (List.mem_cons_of_mem x ha))]

/-- dropWhile leaves untouched a list none of whose elements satisfy the
predicate. -/
theorem dropWhile_of_none {α} {p : α → Bool} : ∀ {l : List α}, (∀ a ∈ l, p a = false) →
    l.dropWhile p = l
  | [], _ => rfl
  | x :: xs, h => by
    have hx : p x = false := h x (List.mem_cons_self x xs)
    simp [List.dropWhile_cons, hx]

/-- takeWhile over an all-satisfying block followed by a failing element. -/
theorem takeWhile_append_stop {α} {p : α → Bool} {x : α} (hx : p x = false) (t : List α) :
    ∀ {l : List α}, (∀ a ∈ l, p a = true) → (l ++ x :: t).takeWhile p = l
  | [], _ => by simp [List.takeWhile_cons, hx]
  | y :: ys, h => by
    have hy : p y = true := h y (List.mem_cons_self y ys)
    simp only [List.cons_append, List.takeWhile_cons, hy, if_true]
    simp [takeWhile_append_stop hx t (fun a ha => h a (List.mem_cons_of_mem y ha))]

/-- dropWhile skips an all-satisfying block. -/
theorem dropWhile_append_all {α} {p : α → Bool} {m : List α} :
    ∀ {l : List α}, (∀ a ∈ l, p a = true) → (l ++ m).dropWhile p = m.dropWhile p
  | [], _ => rfl
  | y :: ys, h => by
    have hy : p y = true := h y (List.mem_cons_self y ys)
    simp only [List.cons_append, List.dropWhile_cons, hy, if_true]
    exact dropWhile_append_all (fun a ha => h a (List.mem_cons_of_mem y ha))

/-- A one-element filtered result pins down `find?`. -/
theorem find?_of_filter_singleton {α} {p : α → Bool} {x : α} :
    ∀ {l : List α}, l.filter p = [x] → l.find? p = some x
  | [], h => by simp at h
  | y :: ys, h => by
    cases hy : p y with
    | true =>
      rw [List.filter_cons_of_pos hy] at h
      injection h with h1 h2
      subst h1
      simp [List.find?_cons, hy]
    | false =>
      rw [List.filter_cons_of_neg (by simp [hy])] at h
      simp only [List.find?_cons, hy]
      exact find?_of_filter_singleton h

/-- The flatten of singleton lists is the map. -/
theorem flatten_map_singleton {α β} (f : α → β) :
    ∀ (l : List α), (l.map (fun x => [f x])).flatten = l.map f
  | [] => rfl
  | x :: xs => by simp [flatten_map_singleton f xs]

/-! ## Parsing lemmas for the Dependency Inspector -/

/-- On a line of the documented shape (tab, whitespace-free token, then
nothing or a space plus metadata), the code's parse `split(sep)[0].strip()`
and the first whitespace-separated token agree, and both equal the token. -/
theorem parse_shape (tok rest : Str) (htokmem : ∀ a ∈ tok, isPySpace a = false)
    (h2 : ¬ tok = []) (h3 : rest = [] ∨ rest.head? = some ' ') :
    parseLibLine ('\t' :: (tok ++ rest)) = tok ∧ firstTokenOf ('\t' :: (tok ++ rest)) = tok := by
  have htoksp : ∀ a ∈ tok, (fun c => ¬ c = ' ' : Char → Bool) a = true := by
    intro a ha
    have hns := htokmem a ha
    simp only [decide_eq_true_eq]
    intro hae
    rw [hae] at hns
    simp [isPySpace] at hns
  have htoknsp : ∀ a ∈ tok, (fun c => ¬ isPySpace c : Char → Bool) a = true := by
    intro a ha
    simp [htokmem a ha]
  have htail : (tok ++ rest).takeWhile (fun c => ¬ c = ' ') = tok := by
    rcases h3 with h3 | h3
    · rw [h3, List.append_nil]
      exact takeWhile_of_all htoksp
    · cases hre : rest with
      | nil => rw [hre] at h3; simp at h3
      | cons rc rt =>
        rw [hre] at h3
        simp only [List.head?_cons, Option.some.injEq] at h3
        rw [h3]
        exact takeWhile_append_stop (by decide) rt htoksp
  constructor
  · rw [parseLibLine]
    have htake : ('\t' :: (tok ++ rest)).takeWhile (fun c => ¬ c = ' ') = '\t' :: tok := by
      simp only [List.takeWhile_cons]
      rw [if_pos (by decide)]
      rw [htail]
    rw [htake, pystrip]
    have hd1 : ('\t' :: tok).dropWhile isPySpace = tok := by
      simp only [List.dropWhile_cons]
      rw [if_pos (by decide)]
      exact dropWhile_of_none htokmem
    rw [hd1]
    have hd2 : tok.reverse.dropWhile isPySpace = tok.reverse := by
      apply dropWhile_of_none
      intro a ha
      exact htokmem a (List.mem_reverse.mp ha)
    rw [hd2, List.reverse_reverse]
  · rw [firstTokenOf]
    have hd : ('\t' :: (tok ++ rest)).dropWhile isPySpace = tok ++ rest := by
      simp only [List.dropWhile_cons]
      rw [if_pos (by decide)]
      cases htk : tok with
      | nil => exact absurd htk h2
      | cons c0 t0 =>
        have hc0 : isPySpace c0 = false := htokmem c0 (by rw [htk]; exact List.mem_cons_self c0 t0)
        simp [List.dropWhile_cons, hc0]
    rw [hd]
    rcases h3 with h3 | h3
    · rw [h3, List.append_nil]
      exact takeWhile_of_all htoknsp
    · cases hre : rest with
      | nil => rw [hre] at h3; simp at h3
      | cons rc rt =>
        rw [hre] at h3
        simp only [List.head?_cons, Option.some.injEq] at h3
        rw [h3]
        exact takeWhile_append_stop (by decide) rt htoknsp

/-- A well-formed line is parsed by the code to its first
whitespace-separated token, which is nonempty. -/
theorem parseLibLine_wf {line : Str} (h : wellFormedLine line = true) :
    parseLibLine line = firstTokenOf line ∧ ¬ firstTokenOf line = [] := by
  cases line with
  | nil => simp [wellFormedLine] at h
  | cons c t =>
    simp only [wellFormedLine, decide_eq_true_eq, List.head?_cons, Option.some.injEq,
      List.drop_succ_cons, List.drop_zero] at h
    obtain ⟨hc, h2, h3⟩ := h
    subst hc
    have htokmem : ∀ a ∈ t.takeWhile (fun c => ¬ isPySpace c), isPySpace a = false := by
      intro a ha
      have := List.mem_takeWhile_imp ha
      simpa using this
    have hs := parse_shape (t.takeWhile (fun c => ¬ isPySpace c))
      (t.dropWhile (fun c => ¬ isPySpace c)) htokmem h2 h3
    rw [List.takeWhile_append_dropWhile] at hs
    exact ⟨hs.1.trans hs.2.symm, by rw [hs.2]; exact h2⟩

/-- Pointwise version of the Inspector claim over the dependency lines. -/
theorem get_used_libs_wf_aux :
    ∀ (L : List Str), (∀ l ∈ L, wellFormedLine l = true) →
      (L.filterMap (fun line =>
        let f := parseLibLine line
        if excludedLib f then none
        else if f = [] then none
        else some f))
      = (L.map firstTokenOf).filter (fun s => ! excludedLib s)
  | [], _ => rfl
  | l :: L, h => by
    have hl := parseLibLine_wf (h l (List.mem_cons_self l L))
    have ih := get_used_libs_wf_aux L (fun x hx => h x (List.mem_cons_of_mem l hx))
    simp only [List.filterMap_cons, List.map_cons, List.filter_cons]
    rw [hl.1]
    cases hex : excludedLib (firstTokenOf l) with
    | true => simp [hex, ih]
    | false =>
      rw [if_neg (by simp [hex]), if_neg hl.2]
      simp [hex, ih]

/-- C2: the Inspector discards the first line of the dependency-listing
tool's output, takes the first whitespace-separated token of each
subsequent (well-formed) line as the library path, excludes exactly those
paths that start with one of the configured system-directory prefixes
(plain string-prefix match via `excludedLib`), and returns the remaining
paths preserving the tool's output order. -/
theorem C2_inspector_parses_and_filters (lines : List Str)
    (h : ∀ l ∈ lines.drop 1, wellFormedLine l = true) :
    get_used_libs lines = ((lines.drop 1).map firstTokenOf).filter (fun s => ! excludedLib s) := by
  rw [get_used_libs]
  exact get_used_libs_wf_aux (lines.drop 1) h

/-- Sample `otool -L` output lines used to witness the Inspector claims. -/
def linesW : List Str :=
  [strL ( "/tmp/My.app/Contents/MacOS/app:"),
   strL ( "\t/opt/lib/libfoo.dylib (compatibility version 1.0.0, current version 1.0.0)"),
   strL ( "\t/usr/lib/libSystem.B.dylib (compatibility version 1.0.0, current version 1.0.0)")]

/-- Witness for C2 on concrete tool output: the hypotheses hold and the
system-prefixed reference is excluded while the other is kept. -/
theorem C2_inspector_parses_and_filters_witness :
    (∀ l ∈ linesW.drop 1, wellFormedLine l = true) ∧
    get_used_libs linesW = ((linesW.drop 1).map firstTokenOf).filter (fun s => ! excludedLib s) ∧
    get_used_libs linesW = [strL ( "/opt/lib/libfoo.dylib")] :=
  ⟨by decide, C2_inspector_parses_and_filters linesW (by decide), by decide⟩

/-! ## Trace analysis helpers -/

/-- The success flag of `processLib` is exactly the success of the inner
`otool` invocation on the on-bundle copy. -/
theorem processLib_snd (env : Env) (m fw ex lib : Str) :
    (processLib env m fw ex lib).2 = env.otoolOk (libFileOf env fw lib) := by
  rw [processLib, libFileOf]
  cases h : env.otoolOk (pjoin fw (basenameP (env.realpath lib))) <;> simp [h]

/-- When every inner `otool` call succeeds, the loop produces the
concatenation of the per-library traces and reports success. -/
theorem runLibs_ok_eq (env : Env) (m fw ex : Str) :
    ∀ (libs : List Str), (∀ l ∈ libs, env.otoolOk (libFileOf env fw l) = true) →
      runLibs env m fw ex libs =
        ((libs.map (fun l => (processLib env m fw ex l).1)).flatten, true)
  | [], _ => rfl
  | a :: t, h => by
    have ha : (processLib env m fw ex a).2 = true := by
      rw [processLib_snd]
      exact h a (List.mem_cons_self a t)
    have ih := runLibs_ok_eq env m fw ex t (fun l hl => h l (List.mem_cons_of_mem a hl))
    simp only [runLibs, ha, if_true, ih, List.map_cons, List.flatten_cons]

/-- A cons of a non-copy event leaves the copy projection unchanged. -/
theorem copyEvents_cons_nonCopy {e : Event} (h : isCopyEv e = false) (es : List Event) :
    copyEvents (e :: es) = copyEvents es := by
  cases e <;> simp_all [copyEvents, List.filterMap_cons, isCopyEv]

/-- A cons of a copy event prepends its (source, destination) pair. -/
theorem copyEvents_cons_copy (s d : Str) (es : List Event) :
    copyEvents (Event.copyFile s d :: es) = (s, d) :: copyEvents es := by
  simp [copyEvents, List.filterMap_cons]

/-- chmod events are invisible to the copy projection. -/
theorem copyEvents_cons_chmod (f : Str) (n : Nat) (es : List Event) :
    copyEvents (Event.chmod f n :: es) = copyEvents es := by
  simp [copyEvents, List.filterMap_cons]

/-- setId events are invisible to the copy projection. -/
theorem copyEvents_cons_setId (n f : Str) (es : List Event) :
    copyEvents (Event.setId n f :: es) = copyEvents es := by
  simp [copyEvents, List.filterMap_cons]

/-- changeRef events are invisible to the copy projection. -/
theorem copyEvents_cons_changeRef (o n f : Str) (es : List Event) :
    copyEvents (Event.changeRef o n f :: es) = copyEvents es := by
  simp [copyEvents, List.filterMap_cons]

/-- strip events are invisible to the copy projection. -/
theorem copyEvents_cons_stripSymbols (f : Str) (es : List Event) :
    copyEvents (Event.stripSymbols f :: es) = copyEvents es := by
  simp [copyEvents, List.filterMap_cons]

/-- makedirs events are invisible to the copy projection. -/
theorem copyEvents_cons_makedirs (d : Str) (es : List Event) :
    copyEvents (Event.makedirs d :: es) = copyEvents es := by
  simp [copyEvents, List.filterMap_cons]

/-- The copy projection distributes over append. -/
theorem copyEvents_append (l1 l2 : List Event) :
    copyEvents (l1 ++ l2) = copyEvents l1 ++ copyEvents l2 :=
  List.filterMap_append l1 l2 _

/-- The copy projection commutes with flatten. -/
theorem copyEvents_flatten (L : List (List Event)) :
    copyEvents L.flatten = (L.map copyEvents).flatten :=
  List.filterMap_flatten _ L

/-- Traces without copy events have an empty copy projection. -/
theorem copyEvents_eq_nil : ∀ {es : List Event}, (∀ e ∈ es, isCopyEv e = false) →
    copyEvents es = []
  | [], _ => rfl
  | e :: es, h => by
    rw [copyEvents_cons_nonCopy (h e (List.mem_cons_self e es))]
    exact copyEvents_eq_nil (fun x hx => h x (List.mem_cons_of_mem e hx))

/-- `create_dmg` performs no file copies. -/
theorem copyEvents_create_dmg (env : Env) (b : Str) : copyEvents (create_dmg env b) = [] := by
  rw [create_dmg]
  cases h : env.pathExists (dmgFileOf b) <;>
    simp [copyEvents, List.filterMap_append, List.filterMap_cons]

/-- One loop iteration copies exactly the resolved library to its
on-bundle location and nothing else. -/
theorem copyEvents_processLib (env : Env) (m fw ex lib : Str) :
    copyEvents (processLib env m fw ex lib).1 = [(env.realpath lib, libFileOf env fw lib)] := by
  rw [processLib]
  have hmap : ∀ e ∈ (get_used_libs (env.otool (pjoin fw (basenameP (env.realpath lib))))).map
      (fun dep => Event.changeRef dep
        (newLibPath env m (pjoin fw (basenameP (env.realpath dep))))
        (pjoin fw (basenameP (env.realpath lib)))), isCopyEv e = false := by
    intro e he
    obtain ⟨d, _, rfl⟩ := List.mem_map.mp he
    rfl
  cases h : env.otoolOk (pjoin fw (basenameP (env.realpath lib))) with
  | false =>
    simp only [h, Bool.false_eq_true, if_false]
    rw [copyEvents_cons_copy, copyEvents_cons_chmod, copyEvents_cons_setId,
      copyEvents_cons_changeRef, libFileOf]
    rfl
  | true =>
    simp only [h, if_true]
    rw [List.cons_append, List.cons_append, List.cons_append, List.cons_append]
    rw [copyEvents_cons_copy, copyEvents_cons_chmod, copyEvents_cons_setId,
      copyEvents_cons_changeRef]
    rw [List.nil_append, copyEvents_eq_nil hmap, libFileOf]

/-- `processLib` never creates a directory. -/
theorem makedirs_notin_processLib (env : Env) (m fw ex lib d : Str) :
    Event.makedirs d ∉ (processLib env m fw ex lib).1 := by
  rw [processLib]
  cases h : env.otoolOk (pjoin fw (basenameP (env.realpath lib))) <;>
    simp [h, List.mem_append, List.mem_map]

/-- The library loop never creates a directory. -/
theorem makedirs_notin_runLibs (env : Env) (m fw ex d : Str) :
    ∀ libs, Event.makedirs d ∉ (runLibs env m fw ex libs).1
  | [] => by simp [runLibs]
  | a :: t => by
    simp only [runLibs]
    cases hr : (processLib env m fw ex a).2 with
    | true =>
      simp only [hr, if_true, List.mem_append]
      rintro (hmem | hmem)
      · exact makedirs_notin_processLib env m fw ex a d hmem
      · exact makedirs_notin_runLibs env m fw ex d t hmem
    | false =>
      simp only [hr, Bool.false_eq_true, if_false]
      exact makedirs_notin_processLib env m fw ex a d

/-- `create_dmg` never creates a directory. -/
theorem makedirs_notin_create_dmg (env : Env) (b d : Str) :
    Event.makedirs d ∉ create_dmg env b := by
  rw [create_dmg]
  cases h : env.pathExists (dmgFileOf b) <;> simp [List.mem_append, List.mem_cons]

/-- Non-copy events do not change disk contents. -/
theorem applyEvent_nonCopy (env : Env) (dk : Str → Option Str) {e : Event}
    (h : isCopyEv e = false) : applyEvent env dk e = dk := by
  cases e <;> first | rfl | simp [isCopyEv] at h

/-- A trace without copies leaves the disk unchanged. -/
theorem diskAfter_noCopy (env : Env) : ∀ {es : List Event},
    (∀ e ∈ es, isCopyEv e = false) → ∀ dk, diskAfter env es dk = dk
  | [], _, _ => rfl
  | e :: es, h, dk => by
    rw [diskAfter, List.foldl_cons, applyEvent_nonCopy env dk (h e (List.mem_cons_self e es))]
    exact diskAfter_noCopy env (fun x hx => h x (List.mem_cons_of_mem e hx)) dk

/-- Disk evolution along an appended trace. -/
theorem diskAfter_append (env : Env) (l1 l2 : List Event) (dk : Str → Option Str) :
    diskAfter env (l1 ++ l2) dk = diskAfter env l2 (diskAfter env l1 dk) :=
  List.foldl_append _ _ _ _

/-- C1: for every materialized direct library of the executable and every
non-system reference `d` reported on its on-bundle copy, the run rewrites
the copy's reference to `d` to the relocatable path computed from
`libraryDir/basename(realpath d)`, but the only copies performed in the
whole run are those of the executable's direct non-system libraries — a
transitive dependency is never copied into the library directory. -/
theorem C1_deps_rewritten_never_copied (env : Env) (a b : Str) (rest : List Str) (execFile : Str)
    (hargv : env.argv = a :: b :: rest)
    (hex : env.pathExists b = true)
    (hef : get_exec_file env (macosDirOf b) = ExecLookup.result (some execFile))
    (hto : env.otoolOk execFile = true)
    (hlibs : ∀ l ∈ get_used_libs (env.otool execFile),
      env.otoolOk (libFileOf env (fwDirOf b) l) = true) :
    copyEvents (mainRun env).1 =
      (get_used_libs (env.otool execFile)).map
        (fun l => (env.realpath l, libFileOf env (fwDirOf b) l)) ∧
    ∀ l ∈ get_used_libs (env.otool execFile),
      ∀ d ∈ get_used_libs (env.otool (libFileOf env (fwDirOf b) l)),
        Event.changeRef d (newLibPath env (macosDirOf b) (libFileOf env (fwDirOf b) d))
          (libFileOf env (fwDirOf b) l) ∈ (mainRun env).1 := by
  by_cases hl : get_used_libs (env.otool execFile) = []
  · have hmain : mainRun env = (Event.stripSymbols execFile :: create_dmg env b,
        Outcome.finished) := by
      unfold mainRun
      rw [hargv]
      simp only [hex, if_true, hef, hto, hl]
    constructor
    · rw [hmain, hl, List.map_nil, copyEvents_cons_stripSymbols, copyEvents_create_dmg]
    · intro l hlmem
      rw [hl] at hlmem
      simp at hlmem
  · have hrl := runLibs_ok_eq env (macosDirOf b) (fwDirOf b) execFile
      (get_used_libs (env.otool execFile)) hlibs
    have hmain : mainRun env = (Event.stripSymbols execFile :: Event.makedirs (fwDirOf b) ::
        (((get_used_libs (env.otool execFile)).map
          (fun l => (processLib env (macosDirOf b) (fwDirOf b) execFile l).1)).flatten
          ++ create_dmg env b), Outcome.finished) := by
      unfold mainRun
      rw [hargv]
      simp only [hex, if_true, hef, hto, if_neg hl, hrl, List.cons_append]
    constructor
    · rw [hmain]
      simp only [copyEvents_cons_stripSymbols, copyEvents_cons_makedirs]
      rw [copyEvents_append, copyEvents_create_dmg, List.append_nil, copyEvents_flatten,
        List.map_map]
      rw [show (copyEvents ∘ fun l => (processLib env (macosDirOf b) (fwDirOf b) execFile l).1)
          = fun l => [(env.realpath l, libFileOf env (fwDirOf b) l)] from
        funext (fun l => copyEvents_processLib env (macosDirOf b) (fwDirOf b) execFile l)]
      exact flatten_map_singleton _ _
    · intro l hlmem d hdmem
      rw [hmain]
      apply List.mem_cons_of_mem
      apply List.mem_cons_of_mem
      apply List.mem_append_left
      rw [List.mem_flatten]
      refine ⟨(processLib env (macosDirOf b) (fwDirOf b) execFile l).1,
        List.mem_map_of_mem _ hlmem, ?_⟩
      rw [processLib]
      have hok : env.otoolOk (pjoin (fwDirOf b) (basenameP (env.realpath l))) = true := by
        have := hlibs l hlmem
        rwa [libFileOf] at this
      simp only [hok, if_true]
      apply List.mem_append_right
      apply List.mem_map.mpr
      refine ⟨d, ?_, ?_⟩
      · rw [libFileOf] at hdmem
        exact hdmem
      · rw [libFileOf, libFileOf]

/-- C3: the bundle's library directory `<bundle>/Contents/Frameworks` is
created if and only if the Inspector reports at least one non-system
direct dependency of the main executable; with zero such dependencies it
is never created. -/
theorem C3_frameworks_dir_iff_libs (env : Env) (a b : Str) (rest : List Str) (execFile : Str)
    (hargv : env.argv = a :: b :: rest)
    (hex : env.pathExists b = true)
    (hef : get_exec_file env (macosDirOf b) = ExecLookup.result (some execFile))
    (hto : env.otoolOk execFile = true) :
    Event.makedirs (fwDirOf b) ∈ (mainRun env).1 ↔
      ¬ get_used_libs (env.otool execFile) = [] := by
  unfold mainRun
  rw [hargv]
  simp only [hex, if_true, hef, hto]
  by_cases hl : get_used_libs (env.otool execFile) = []
  · rw [if_pos hl]
    simp [hl, List.mem_cons, makedirs_notin_create_dmg env b (fwDirOf b)]
  · rw [if_neg hl]
    cases hr : (runLibs env (macosDirOf b) (fwDirOf b) execFile
        (get_used_libs (env.otool execFile))).2 with
    | true =>
      simp only [hr, if_true]
      simp [hl, List.mem_cons, List.mem_append]
    | false =>
      simp only [hr, Bool.false_eq_true, if_false]
      simp [hl, List.mem_cons]

/-- One-step disk evolution. -/
theorem diskAfter_cons (env : Env) (e : Event) (es : List Event) (dk : Str → Option Str) :
    diskAfter env (e :: es) dk = diskAfter env es (applyEvent env dk e) := rfl

/-- Dependency-rewrite events are not copies. -/
theorem isCopyEv_map_changeRef (g : Str → Str) (k : Str) (L : List Str) :
    ∀ e ∈ L.map (fun d => Event.changeRef d (g d) k), isCopyEv e = false := by
  intro e he
  obtain ⟨d, _, rfl⟩ := List.mem_map.mp he
  rfl

/-- Disk contents after one loop iteration: the on-bundle location of the
processed library now holds the content of its resolved real path;
nothing else changed. -/
theorem diskAfter_processLib (env : Env) (m fw ex lib : Str) (dk : Str → Option Str) :
    diskAfter env (processLib env m fw ex lib).1 dk =
      fun p => if p = libFileOf env fw lib then some (env.content (env.realpath lib))
               else dk p := by
  rw [processLib]
  cases h : env.otoolOk (pjoin fw (basenameP (env.realpath lib))) with
  | true =>
    simp only [h, if_true, List.cons_append, List.nil_append]
    rw [diskAfter_cons, diskAfter_cons, diskAfter_cons, diskAfter_cons,
      diskAfter_noCopy env (isCopyEv_map_changeRef _ _ _)]
    simp only [libFileOf]
    rfl
  | false =>
    simp only [h, Bool.false_eq_true, if_false]
    rw [diskAfter_cons, diskAfter_cons, diskAfter_cons, diskAfter_cons]
    simp only [libFileOf]
    rfl

/-- A filterMap that always misses is empty. -/
theorem filterMap_none_eq_nil {α β : Type} (l : List α) :
    l.filterMap (fun _ => (none : Option β)) = [] := by
  induction l <;> simp_all [List.filterMap_cons]

/-- C4: materialization resolves each reference through symlinks to its
real path, copies that file to `libraryDir/basename(realPath)` preserving
content, and sets 0755 (= 493) permissions; for two distinct source paths
with equal base names the destinations collide and the second
materialization overwrites the first without raising an error. -/
theorem C4_materialization_overwrites (env : Env) (m fw ex a b : Str)
    (hab : ¬ a = b)
    (hbase : basenameP (env.realpath a) = basenameP (env.realpath b))
    (hok1 : env.otoolOk (libFileOf env fw a) = true)
    (hok2 : env.otoolOk (libFileOf env fw b) = true) :
    (∀ lib : Str, copyEvents (processLib env m fw ex lib).1 =
        [(env.realpath lib, libFileOf env fw lib)]) ∧
    (∀ lib : Str, Event.chmod (libFileOf env fw lib) 493 ∈ (processLib env m fw ex lib).1) ∧
    libFileOf env fw a = libFileOf env fw b ∧
    (runLibs env m fw ex [a, b]).2 = true ∧
    ∀ init, diskAfter env (runLibs env m fw ex [a, b]).1 init (libFileOf env fw b) =
      some (env.content (env.realpath b)) := by
  have hboth : ∀ l ∈ [a, b], env.otoolOk (libFileOf env fw l) = true := by
    intro l hlmem
    rcases List.mem_cons.mp hlmem with rfl | hlmem2
    · exact hok1
    · rcases List.mem_cons.mp hlmem2 with rfl | h3
      · exact hok2
      · simp at h3
  have hrl := runLibs_ok_eq env m fw ex [a, b] hboth
  refine ⟨?_, ?_, ?_, ?_, ?_⟩
  · intro lib
    exact copyEvents_processLib env m fw ex lib
  · intro lib
    rw [processLib, libFileOf]
    cases h : env.otoolOk (pjoin fw (basenameP (env.realpath lib))) <;>
      simp [List.mem_cons, List.mem_append]
  · rw [libFileOf, libFileOf, hbase]
  · rw [hrl]
  · intro init
    rw [hrl]
    simp only [List.map_cons, List.map_nil, List.flatten_cons, List.flatten_nil,
      List.append_nil]
    rw [diskAfter_append, diskAfter_processLib]
    simp

/-- Dependency-rewrite events carry no install-identity rewrite. -/
theorem setIdEvents_map_changeRef (g : Str → Str) (k : Str) (L : List Str) :
    setIdEvents (L.map (fun d => Event.changeRef d (g d) k)) = [] := by
  simp only [setIdEvents, List.filterMap_map]
  exact filterMap_none_eq_nil L

/-- C5: for every materialized library, the rewriter computes the
relocatable reference `newLibPath` — the executable-relative placeholder
token joined with the relative path from the executable directory to the
on-bundle library path — and issues exactly two rewrites: exactly one
setting of the library file's own install identity to that reference, and
exactly one change of the referencing binary's load-command occurrence of
the old reference to it.  (The on-bundle copy is a different file from
the referencing binary, whence the disequality hypothesis.) -/
theorem C5_exactly_two_rewrites (env : Env) (m fw ex lib : Str)
    (hne : ¬ libFileOf env fw lib = ex) :
    setIdEvents (processLib env m fw ex lib).1 =
      [(newLibPath env m (libFileOf env fw lib), libFileOf env fw lib)] ∧
    changeEventsOn ex (processLib env m fw ex lib).1 =
      [(lib, newLibPath env m (libFileOf env fw lib))] := by
  simp only [libFileOf] at hne ⊢
  rw [processLib]
  cases h : env.otoolOk (pjoin fw (basenameP (env.realpath lib))) with
  | true =>
    simp only [h, if_true, List.cons_append, List.nil_append]
    constructor
    · simp [setIdEvents, List.filterMap_cons, List.filterMap_map, filterMap_none_eq_nil]
    · simp [changeEventsOn, List.filterMap_cons, List.filterMap_map, hne,
        filterMap_none_eq_nil]
  | false =>
    simp only [h, Bool.false_eq_true, if_false]
    constructor
    · simp [setIdEvents, List.filterMap_cons]
    · simp [changeEventsOn, List.filterMap_cons, hne]

/-- C6: when the bundle's `Contents/MacOS` directory contains exactly one
entry that is a regular file and executable, that entry is the one
returned as the bundle's executable; and when no entry qualifies, the run
exits with the executable-not-found message having performed no
file-system mutation. -/
theorem C6_unique_executable (env : Env) (a b x : Str) (rest : List Str)
    (hargv : env.argv = a :: b :: rest)
    (hex : env.pathExists b = true)
    (hld : env.listdirOk (macosDirOf b) = true) :
    (((env.listdir (macosDirOf b)).filter (fun i =>
        env.isfile (pjoin (macosDirOf b) i) && env.access (pjoin (macosDirOf b) i)) = [x]) →
      get_exec_file env (macosDirOf b) = ExecLookup.result (some (pjoin (macosDirOf b) x))) ∧
    (((env.listdir (macosDirOf b)).all (fun i =>
        !(env.isfile (pjoin (macosDirOf b) i) && env.access (pjoin (macosDirOf b) i)))) = true →
      mainRun env = ([], Outcome.usageExit execMissingMsg)) := by
  constructor
  · intro hfil
    rw [get_exec_file, if_pos hld, find?_of_filter_singleton hfil]
    rfl
  · intro hall
    have hnone : get_exec_file env (macosDirOf b) = ExecLookup.result none := by
      rw [get_exec_file, if_pos hld]
      have hfind : (env.listdir (macosDirOf b)).find? (fun i =>
          env.isfile (pjoin (macosDirOf b) i) && env.access (pjoin (macosDirOf b) i)) = none := by
        rw [List.find?_eq_none]
        intro y hy hpy
        have h2 := List.all_eq_true.mp hall y hy
        rw [hpy] at h2
        simp at h2
      rw [hfind]
      rfl
    unfold mainRun
    rw [hargv]
    simp only [hex, if_true, hnone]

/-- The loop body never consults the recorded call statuses. -/
theorem processLib_status_irrel (a0 : List Str) (c : Str) (p lo : Str → Bool)
    (ld : Str → List Str) (fi xs ok : Str → Bool) (ot : Str → List Str) (rp co : Str → Str)
    (s1 s2 : List Str → Int) (m fw ex lib : Str) :
    processLib (Env.mk a0 c p lo ld fi xs ok ot rp co s1) m fw ex lib =
    processLib (Env.mk a0 c p lo ld fi xs ok ot rp co s2) m fw ex lib := rfl

/-- The library loop never consults the recorded call statuses. -/
theorem runLibs_status_irrel (a0 : List Str) (c : Str) (p lo : Str → Bool)
    (ld : Str → List Str) (fi xs ok : Str → Bool) (ot : Str → List Str) (rp co : Str → Str)
    (s1 s2 : List Str → Int) (m fw ex : Str) (libs : List Str) :
    runLibs (Env.mk a0 c p lo ld fi xs ok ot rp co s1) m fw ex libs =
    runLibs (Env.mk a0 c p lo ld fi xs ok ot rp co s2) m fw ex libs := by
  induction libs with
  | nil => rfl
  | cons hd tl ih =>
    simp only [runLibs]
    rw [show processLib (Env.mk a0 c p lo ld fi xs ok ot rp co s2) m fw ex hd =
        processLib (Env.mk a0 c p lo ld fi xs ok ot rp co s1) m fw ex hd from rfl, ih]

/-- The whole run never consults the recorded call statuses. -/
theorem mainRun_status_irrel (a0 : List Str) (c : Str) (p lo : Str → Bool)
    (ld : Str → List Str) (fi xs ok : Str → Bool) (ot : Str → List Str) (rp co : Str → Str)
    (s1 s2 : List Str → Int) :
    mainRun (Env.mk a0 c p lo ld fi xs ok ot rp co s1) =
    mainRun (Env.mk a0 c p lo ld fi xs ok ot rp co s2) := by
  cases a0 with
  | nil => rfl
  | cons x t =>
    cases t with
    | nil => rfl
    | cons b0 t2 =>
      unfold mainRun
      by_cases hp : p b0 = true
      · simp only [hp, if_true]
        rw [show get_exec_file (Env.mk (x :: b0 :: t2) c p lo ld fi xs ok ot rp co s2)
              (macosDirOf b0) =
            get_exec_file (Env.mk (x :: b0 :: t2) c p lo ld fi xs ok ot rp co s1)
              (macosDirOf b0) from rfl]
        cases hgef : get_exec_file (Env.mk (x :: b0 :: t2) c p lo ld fi xs ok ot rp co s1)
            (macosDirOf b0) with
        | listdirFailed => rfl
        | result of =>
          cases of with
          | none => rfl
          | some ef =>
            by_cases hok : ok ef = true
            · simp only [hok, if_true]
              by_cases hl : get_used_libs (ot ef) = []
              · rw [if_pos hl, if_pos hl,
                  show create_dmg (Env.mk (x :: b0 :: t2) c p lo ld fi xs ok ot rp co s2) b0 =
                    create_dmg (Env.mk (x :: b0 :: t2) c p lo ld fi xs ok ot rp co s1) b0
                    from rfl]
              · rw [if_neg hl, if_neg hl,
                  runLibs_status_irrel (x :: b0 :: t2) c p lo ld fi xs ok ot rp co s1 s2
                    (macosDirOf b0) (fwDirOf b0) ef (get_used_libs (ot ef)),
                  show create_dmg (Env.mk (x :: b0 :: t2) c p lo ld fi xs ok ot rp co s1) b0 =
                    create_dmg (Env.mk (x :: b0 :: t2) c p lo ld fi xs ok ot rp co s2) b0
                    from rfl]
            · simp only [hok, Bool.false_eq_true, if_false]
      · simp only [hp, Bool.false_eq_true, if_false]

/-- C7: the exit statuses returned by the rewrite-tool invocations (and
every other `subprocess.call`) are never consulted: two environments
differing only in the reported call statuses produce identical runs —
the same events, in the same order, and the same outcome, so a failing
rewrite neither raises nor surfaces an error nor stops the run. -/
theorem C7_rewrite_status_ignored (e1 e2 : Env)
    (h1 : e1.argv = e2.argv) (h2 : e1.cwd = e2.cwd) (h3 : e1.pathExists = e2.pathExists)
    (h4 : e1.listdirOk = e2.listdirOk) (h5 : e1.listdir = e2.listdir)
    (h6 : e1.isfile = e2.isfile) (h7 : e1.access = e2.access)
    (h8 : e1.otoolOk = e2.otoolOk) (h9 : e1.otool = e2.otool)
    (h10 : e1.realpath = e2.realpath) (h11 : e1.content = e2.content) :
    mainRun e1 = mainRun e2 := by
  obtain ⟨a, c, p, lo, ld, fi, xs, ok, ot, rp, co, s1⟩ := e1
  obtain ⟨a2, c2, p2, lo2, ld2, fi2, xs2, ok2, ot2, rp2, co2, s2⟩ := e2
  replace h1 : a = a2 := h1
  replace h2 : c = c2 := h2
  replace h3 : p = p2 := h3
  replace h4 : lo = lo2 := h4
  replace h5 : ld = ld2 := h5
  replace h6 : fi = fi2 := h6
  replace h7 : xs = xs2 := h7
  replace h8 : ok = ok2 := h8
  replace h9 : ot = ot2 := h9
  replace h10 : rp = rp2 := h10
  replace h11 : co = co2 := h11
  subst h1 h2 h3 h4 h5 h6 h7 h8 h9 h10 h11
  exact mainRun_status_irrel a c p lo ld fi xs ok ot rp co s1 s2

/-- C8: a missing CLI argument, a non-existent bundle path, or an absent
executable each terminate the run with a usage exit carrying the
corresponding message, with an empty event trace — no file-system
mutation is performed before exiting. -/
theorem C8_usage_errors_no_mutation (env : Env) :
    ((env.argv = [] ∨ ∃ a, env.argv = [a]) →
      mainRun env = ([], Outcome.usageExit noInputMsg)) ∧
    (∀ a b rest, env.argv = a :: b :: rest → env.pathExists b = false →
      mainRun env = ([], Outcome.usageExit (bundleMissingMsg b))) ∧
    (∀ a b rest, env.argv = a :: b :: rest → env.pathExists b = true →
      get_exec_file env (macosDirOf b) = ExecLookup.result none →
      mainRun env = ([], Outcome.usageExit execMissingMsg)) := by
  refine ⟨?_, ?_, ?_⟩
  · rintro (h | ⟨a, h⟩) <;> (unfold mainRun; rw [h])
  · intro a b rest h hp
    unfold mainRun
    rw [h]
    simp only [hp, Bool.false_eq_true, if_false]
  · intro a b rest h hp hge
    unfold mainRun
    rw [h]
    simp only [hp, if_true, hge]

/-- The three usage-exit messages carry distinct leading characters, so
the bundle-missing exit cannot be confused with the executable-missing
exit whatever the bundle path is. -/
theorem execMsg_ne_bundleMsg (b : Str) : ¬ execMissingMsg = bundleMissingMsg b := by
  intro h
  have h2 : execMissingMsg.head? = (bundleMissingMsg b).head? := congrArg List.head? h
  have h3 : execMissingMsg.head? = some 'E' := rfl
  have h4 : (bundleMissingMsg b).head? = some 'B' := rfl
  rw [h3, h4] at h2
  exact absurd h2 (by decide)

/-- Once the bundle path passes the existence check, the run can only
crash, finish, or exit with the executable-missing message. -/
theorem outcome_after_exists (env : Env) (a b : Str) (rest : List Str)
    (hargv : env.argv = a :: b :: rest) (hp : env.pathExists b = true) :
    (mainRun env).2 = Outcome.crashed ∨ (mainRun env).2 = Outcome.finished ∨
    (mainRun env).2 = Outcome.usageExit execMissingMsg := by
  unfold mainRun
  rw [hargv]
  simp only [hp, if_true]
  cases hge : get_exec_file env (macosDirOf b) with
  | listdirFailed => left; rfl
  | result of =>
    cases of with
    | none => right; right; rfl
    | some ef =>
      cases hok : env.otoolOk ef with
      | false => simp [hok]
      | true =>
        simp only [hok, if_true]
        by_cases hl : get_used_libs (env.otool ef) = []
        · rw [if_pos hl]
          right; left; rfl
        · rw [if_neg hl]
          cases hr : (runLibs env (macosDirOf b) (fwDirOf b) ef
              (get_used_libs (env.otool ef))).2 with
          | true => simp [hr]
          | false => simp [hr]

/-- C10 (implicit): the bundle check tests only bare path existence — the
bundle-missing exit is taken exactly when the path does not exist, and an
existing path that is not a directory passes the check and the run
proceeds to list `<arg>/Contents/MacOS` (crashing there when the listing
raises). -/
theorem C10_existence_only (env : Env) (a b : Str) (rest : List Str)
    (hargv : env.argv = a :: b :: rest) :
    ((mainRun env).2 = Outcome.usageExit (bundleMissingMsg b) ↔ env.pathExists b = false) ∧
    (env.pathExists b = true → env.listdirOk (macosDirOf b) = false →
      mainRun env = ([], Outcome.crashed)) := by
  constructor
  · cases hp : env.pathExists b with
    | false =>
      simp only [iff_true]
      unfold mainRun
      rw [hargv]
      simp only [hp, Bool.false_eq_true, if_false]
    | true =>
      constructor
      · intro hcontra
        exfalso
        rcases outcome_after_exists env a b rest hargv hp with h | h | h
        · rw [hcontra] at h
          exact Outcome.noConfusion h
        · rw [hcontra] at h
          exact Outcome.noConfusion h
        · rw [hcontra] at h
          have hmsg : bundleMissingMsg b = execMissingMsg := by
            injection h
          exact execMsg_ne_bundleMsg b hmsg.symm
      · intro hcontra
        exact absurd hcontra (by simp)
  · intro hp hld
    have hge : get_exec_file env (macosDirOf b) = ExecLookup.listdirFailed := by
      rw [get_exec_file, if_neg]
      simp [hld]
    unfold mainRun
    rw [hargv]
    simp only [hp, if_true, hge]

/-- dropWhile empties a list all of whose elements satisfy the predicate. -/
theorem dropWhile_all_nil {α} {p : α → Bool} : ∀ {l : List α}, (∀ a ∈ l, p a = true) →
    l.dropWhile p = []
  | [], _ => rfl
  | x :: xs, h => by
    have hx : p x = true := h x (List.mem_cons_self x xs)
    simp only [List.dropWhile_cons, hx, if_true]
    exact dropWhile_all_nil (fun a ha => h a (List.mem_cons_of_mem x ha))

/-- A base name never contains a slash. -/
theorem basenameP_no_slash {p : Str} : ∀ c ∈ basenameP p, ¬ c = '/' := by
  intro c hc
  rw [basenameP, List.mem_reverse] at hc
  have := List.mem_takeWhile_imp hc
  simpa using this

/-- The root part returned by `splitext` is made of characters of the
input. -/
theorem splitextP_fst_subset (p : Str) : ∀ c ∈ (splitextP p).1, c ∈ p := by
  rw [splitextP]
  cases rfindIdx '.' p with
  | none =>
    intro c hc
    exact hc
  | some d =>
    dsimp only
    split
    · intro c hc
      exact List.take_subset _ _ hc
    · intro c hc
      exact hc

/-- A slash-free path is not absolute. -/
theorem isAbsP_false_of_no_slash (f : Str) (hfs : ∀ c ∈ f, ¬ c = '/') : isAbsP f = false := by
  cases f with
  | nil => rfl
  | cons c t =>
    simp only [isAbsP, decide_eq_false_iff_not]
    exact hfs c (List.mem_cons_self c t)

/-- Reversal of a slash-joined concatenation. -/
theorem reverse_append_slash (D f : Str) :
    (D ++ '/' :: f).reverse = f.reverse ++ '/' :: D.reverse := by
  simp [List.reverse_append, List.reverse_cons, List.append_assoc]

/-- A string ending in a slash reverses to a slash-headed string. -/
theorem reverse_cons_of_getLast (D : Str) (h : D.getLast? = some '/') :
    ∃ R, D.reverse = '/' :: R := by
  have hh := List.head?_reverse D
  rw [h] at hh
  cases hrev : D.reverse with
  | nil =>
    rw [hrev] at hh
    simp at hh
  | cons c R =>
    rw [hrev] at hh
    simp only [List.head?_cons, Option.some.injEq] at hh
    exact ⟨R, by rw [hh]⟩

/-- Joining a nonempty slash-free file name onto any directory gives a
path whose base name is that file name. -/
theorem basenameP_pjoin (D f : Str) (hf : ¬ f = []) (hfs : ∀ c ∈ f, ¬ c = '/') :
    basenameP (pjoin D f) = f := by
  have habs : isAbsP f = false := isAbsP_false_of_no_slash f hfs
  have hrevf : ∀ a ∈ f.reverse, (fun c => ¬ c = '/' : Char → Bool) a = true := by
    intro a ha
    simp only [decide_eq_true_eq]
    exact hfs a (List.mem_reverse.mp ha)
  rw [pjoin, if_neg (by simp [habs])]
  by_cases hD : D = [] ∨ D.getLast? = some '/'
  · rw [if_pos hD]
    rcases hD with rfl | hD
    · rw [List.nil_append, basenameP, takeWhile_of_all hrevf, List.reverse_reverse]
    · obtain ⟨R, hR⟩ := reverse_cons_of_getLast D hD
      rw [basenameP, List.reverse_append, hR,
        takeWhile_append_stop (by decide) R hrevf, List.reverse_reverse]
  · rw [if_neg hD, basenameP, reverse_append_slash,
      takeWhile_append_stop (by decide) D.reverse hrevf, List.reverse_reverse]

/-- The dirname head of a slash-free path is empty. -/
theorem dirHeadP_eq_nil_of_no_slash (f : Str) (hfs : ∀ c ∈ f, ¬ c = '/') :
    dirHeadP f = [] := by
  rw [dirHeadP, dropWhile_all_nil, List.reverse_nil]
  intro a ha
  simp only [decide_eq_true_eq]
  exact hfs a (List.mem_reverse.mp ha)

/-- An all-slash nonempty string ends in a slash. -/
theorem all_slash_getLast (D : Str) (hne : ¬ D = []) (hall : D.all (fun c => c = '/') = true) :
    D.getLast? = some '/' := by
  rw [List.getLast?_eq_getLast D hne]
  have := List.all_eq_true.mp hall (D.getLast hne) (List.getLast_mem hne)
  simp only [decide_eq_true_eq] at this
  rw [this]

/-- The last character of a string not ending in slash is not a slash. -/
theorem getLast_not_slash (D : Str) (hne : ¬ D = []) (h : ¬ D.getLast? = some '/') :
    ¬ D.getLast hne = '/' := by
  intro hcontra
  apply h
  rw [List.getLast?_eq_getLast D hne, hcontra]

/-- Every dirname is empty, all slashes, or does not end in a slash. -/
theorem dirnameP_shape (p : Str) : dirnameP p = [] ∨
    ((dirnameP p).all (fun c => c = '/') = true ∧ ¬ dirnameP p = []) ∨
    ¬ (dirnameP p).getLast? = some '/' := by
  rw [dirnameP]
  by_cases h1 : dirHeadP p = []
  · rw [if_pos h1]
    left
    rfl
  · rw [if_neg h1]
    by_cases h2 : (dirHeadP p).all (fun c => c = '/') = true
    · rw [if_pos h2]
      right; left
      exact ⟨h2, h1⟩
    · rw [if_neg h2]
      right; right
      rw [rstripSlash, ← List.head?_reverse, List.reverse_reverse]
      intro hcontra
      have hh := List.head?_dropWhile_not (fun c => c = '/') (dirHeadP p).reverse
      rw [hcontra] at hh
      simp at hh

/-- Joining a nonempty slash-free file name onto a dirname does not
change the dirname: the artifact is a sibling. -/
theorem dirnameP_pjoin (b f : Str) (hf : ¬ f = []) (hfs : ∀ c ∈ f, ¬ c = '/') :
    dirnameP (pjoin (dirnameP b) f) = dirnameP b := by
  have habs : isAbsP f = false := isAbsP_false_of_no_slash f hfs
  have hrevf : ∀ a ∈ f.reverse, (fun c => ¬ c = '/' : Char → Bool) a = true := by
    intro a ha
    simp only [decide_eq_true_eq]
    exact hfs a (List.mem_reverse.mp ha)
  by_cases hD0 : dirnameP b = []
  · rw [hD0, pjoin, if_neg (by simp [habs]), if_pos (Or.inl rfl), List.nil_append]
    rw [dirnameP, if_pos (dirHeadP_eq_nil_of_no_slash f hfs)]
  · rcases dirnameP_shape b with h | ⟨hall, hne⟩ | hlast
    · exact absurd h hD0
    · have hlastD : (dirnameP b).getLast? = some '/' := all_slash_getLast _ hD0 hall
      rw [pjoin, if_neg (by simp [habs]), if_pos (Or.inr hlastD)]
      have hhead : dirHeadP (dirnameP b ++ f) = dirnameP b := by
        rw [dirHeadP, List.reverse_append, dropWhile_append_all hrevf]
        obtain ⟨R, hR⟩ := reverse_cons_of_getLast (dirnameP b) hlastD
        rw [hR, List.dropWhile_cons, if_neg (by decide), ← hR, List.reverse_reverse]
      conv_lhs => rw [dirnameP]
      rw [hhead, if_neg hD0, if_pos hall]
    · rw [pjoin, if_neg (by simp [habs]), if_neg (by
        rintro (h | h)
        · exact hD0 h
        · exact hlast h)]
      have hhead : dirHeadP (dirnameP b ++ '/' :: f) = dirnameP b ++ ['/'] := by
        rw [dirHeadP, reverse_append_slash, dropWhile_append_all hrevf,
          List.dropWhile_cons, if_neg (by decide), List.reverse_cons, List.reverse_reverse]
      conv_lhs => rw [dirnameP]
      rw [hhead]
      have hne2 : ¬ dirnameP b ++ ['/'] = [] := by simp
      rw [if_neg hne2]
      have hnall : ¬ (dirnameP b ++ ['/']).all (fun c => c = '/') = true := by
        intro hcontra
        have hg := List.all_eq_true.mp hcontra ((dirnameP b).getLast hD0)
          (List.mem_append_left _ (List.getLast_mem hD0))
        simp only [decide_eq_true_eq] at hg
        exact getLast_not_slash _ hD0 hlast hg
      rw [if_neg hnall, rstripSlash, List.reverse_append]
      rw [show (['/'] : Str).reverse ++ (dirnameP b).reverse =
          '/' :: (dirnameP b).reverse by simp]
      rw [List.dropWhile_cons, if_pos (by decide)]
      cases hrev : (dirnameP b).reverse with
      | nil =>
        exfalso
        apply hD0
        have := congrArg List.reverse hrev
        simpa using this
      | cons c R =>
        have hc : ¬ c = '/' := by
          have hh := List.head?_reverse (dirnameP b)
          rw [hrev] at hh
          simp only [List.head?_cons] at hh
          intro hceq
          apply hlast
          rw [← hh, hceq]
        rw [List.dropWhile_cons, if_neg (by simpa using hc), ← hrev, List.reverse_reverse]

/-- C9: the disk-image artifact is named after the bundle with its
extension replaced by `.dmg`, is placed as a sibling of the bundle
directory (same dirname), and any pre-existing file at that path is
deleted before the creation tool is invoked. -/
theorem C9_dmg_artifact (env : Env) (b : Str) :
    create_dmg env b =
      (if env.pathExists (dmgFileOf b) then [Event.removeFile (dmgFileOf b)] else []) ++
        [Event.createDmgImage (dmgFileOf b) (dmgNameOf b) b] ∧
    basenameP (dmgFileOf b) = (splitextP (basenameP b)).1 ++ strL ( ".dmg") ∧
    dirnameP (dmgFileOf b) = dirnameP b := by
  have hfs : ∀ c ∈ dmgNameOf b ++ strL ( ".dmg"), ¬ c = '/' := by
    intro c hc
    rcases List.mem_append.mp hc with hc | hc
    · rw [dmgNameOf] at hc
      exact basenameP_no_slash c (splitextP_fst_subset (basenameP b) c hc)
    · have hlit : ∀ x ∈ strL ( ".dmg"), ¬ x = '/' := by decide
      exact hlit c hc
  have hf : ¬ dmgNameOf b ++ strL ( ".dmg") = [] := by
    intro hcontra
    cases hn : dmgNameOf b with
    | nil =>
      rw [hn] at hcontra
      exact absurd hcontra (by decide)
    | cons c t =>
      rw [hn] at hcontra
      simp at hcontra
  refine ⟨rfl, ?_, ?_⟩
  · rw [dmgFileOf]
    have := basenameP_pjoin (dirnameP b) (dmgNameOf b ++ strL ( ".dmg")) hf hfs
    rw [this, dmgNameOf]
  · rw [dmgFileOf]
    exact dirnameP_pjoin b _ hf hfs

/-! ## Witnesses -/

/-- Witness for C1: in the concrete bundle, only the direct library is
copied, and the transitive reference inside the on-bundle copy is
rewritten to a location that is never populated. -/
theorem C1_deps_rewritten_never_copied_witness :
    copyEvents (mainRun envW).1 =
      (get_used_libs (envW.otool execW)).map
        (fun l => (envW.realpath l, libFileOf envW (fwDirOf bundleW) l)) ∧
    Event.changeRef depW
      (newLibPath envW (macosDirOf bundleW) (libFileOf envW (fwDirOf bundleW) depW))
      (libFileOf envW (fwDirOf bundleW) libW) ∈ (mainRun envW).1 := by
  have h := C1_deps_rewritten_never_copied envW (strL ( "script")) bundleW [] execW rfl
    (by decide) (by decide) (by decide) (by decide)
  exact ⟨h.1, h.2 libW (by decide) depW (by decide)⟩

/-- Witness for C3: the concrete executable has one non-system library
and the library directory creation event occurs. -/
theorem C3_frameworks_dir_iff_libs_witness :
    ¬ get_used_libs (envW.otool execW) = [] ∧
    Event.makedirs (fwDirOf bundleW) ∈ (mainRun envW).1 := by
  have h := C3_frameworks_dir_iff_libs envW (strL ( "script")) bundleW [] execW rfl
    (by decide) (by decide) (by decide)
  exact ⟨by decide, h.mpr (by decide)⟩

/-- Witness for C4: two distinct sources with the same base name collide
on one destination and the second copy wins without an error. -/
theorem C4_materialization_overwrites_witness :
    (¬ dupAW = dupBW) ∧
    basenameP (envW.realpath dupAW) = basenameP (envW.realpath dupBW) ∧
    libFileOf envW fwW dupAW = libFileOf envW fwW dupBW ∧
    diskAfter envW (runLibs envW macosW fwW execW [dupAW, dupBW]).1 (fun _ => none)
      (libFileOf envW fwW dupBW) = some (envW.content (envW.realpath dupBW)) := by
  have h := C4_materialization_overwrites envW macosW fwW execW dupAW dupBW
    (by decide) (by decide) (by decide) (by decide)
  exact ⟨by decide, by decide, h.2.2.1, h.2.2.2.2 (fun _ => none)⟩

/-- Witness for C5: the concrete materialization issues exactly one
identity rewrite and exactly one reference change on the executable. -/
theorem C5_exactly_two_rewrites_witness :
    (¬ libFileOf envW fwW libW = execW) ∧
    setIdEvents (processLib envW macosW fwW execW libW).1 =
      [(newLibPath envW macosW (libFileOf envW fwW libW), libFileOf envW fwW libW)] ∧
    changeEventsOn execW (processLib envW macosW fwW execW libW).1 =
      [(libW, newLibPath envW macosW (libFileOf envW fwW libW))] := by
  have h := C5_exactly_two_rewrites envW macosW fwW execW libW (by decide)
  exact ⟨by decide, h.1, h.2⟩

/-- Witness for C6: the concrete MacOS directory has exactly one
executable regular file and it is returned. -/
theorem C6_unique_executable_witness :
    ((envW.listdir (macosDirOf bundleW)).filter (fun i =>
      envW.isfile (pjoin (macosDirOf bundleW) i) && envW.access (pjoin (macosDirOf bundleW) i))
      = [strL ( "app")]) ∧
    get_exec_file envW (macosDirOf bundleW) =
      ExecLookup.result (some (pjoin (macosDirOf bundleW) (strL ( "app")))) := by
  have h := C6_unique_executable envW (strL ( "script")) bundleW (strL ( "app")) [] rfl
    (by decide) (by decide)
  exact ⟨by decide, h.1 (by decide)⟩

/-- Witness for C7: with every rewrite tool reporting failure (status 1)
instead of success (status 0), the run is unchanged. -/
theorem C7_rewrite_status_ignored_witness :
    envW.callStatus [] = 0 ∧ envFailW.callStatus [] = 1 ∧ mainRun envW = mainRun envFailW := by
  refine ⟨rfl, rfl, ?_⟩
  exact C7_rewrite_status_ignored envW envFailW rfl rfl rfl rfl rfl rfl rfl rfl rfl rfl rfl

/-- Witness for C8: the three usage errors each exit with their message
and an empty trace. -/
theorem C8_usage_errors_no_mutation_witness :
    mainRun envNoArg = ([], Outcome.usageExit noInputMsg) ∧
    mainRun envNoBundle = ([], Outcome.usageExit (bundleMissingMsg (strL ( "/tmp/Nope.app")))) ∧
    mainRun envNoExec = ([], Outcome.usageExit execMissingMsg) := by
  refine ⟨?_, ?_, ?_⟩
  · exact (C8_usage_errors_no_mutation envNoArg).1 (Or.inr ⟨strL ( "script"), rfl⟩)
  · exact (C8_usage_errors_no_mutation envNoBundle).2.1 (strL ( "script"))
      (strL ( "/tmp/Nope.app")) [] rfl (by decide)
  · exact (C8_usage_errors_no_mutation envNoExec).2.2 (strL ( "script")) bundleW [] rfl
      (by decide) (by decide)

/-- Witness for C10: an existing non-directory bundle argument passes the
existence check and the run crashes while listing `Contents/MacOS`; the
bundle-missing exit happens exactly on the non-existent path. -/
theorem C10_existence_only_witness :
    envFileW.pathExists bundleW = true ∧
    envFileW.listdirOk (macosDirOf bundleW) = false ∧
    mainRun envFileW = ([], Outcome.crashed) ∧
    ((mainRun envNoBundle).2 = Outcome.usageExit (bundleMissingMsg (strL ( "/tmp/Nope.app")))
      ↔ envNoBundle.pathExists (strL ( "/tmp/Nope.app")) = false) := by
  refine ⟨by decide, by decide, ?_, ?_⟩
  · exact (C10_existence_only envFileW (strL ( "script")) bundleW [] rfl).2
      (by decide) (by decide)
  · exact (C10_existence_only envNoBundle (strL ( "script")) (strL ( "/tmp/Nope.app")) [] rfl).1
